import Mathlib

/-!
# Verification of the YAN mega-repo paginated collectors and posting-time analysis

Shallow embedding of the algorithmic core of the repository:

* the cast-timing agent (`fetchAllUserCasts`, `farcasterEpochToDate`,
  `analyzeOptimalPostingTimesUTC`) — source file `src/unnamed/part_000`
  (second document, the cast-timing-analyst agent);
* the follower-analyst agent pagination loop and FID de-duplication —
  source file `src/follower-analyst/index.ts`, capability
  `getTrueAudienceProfile`;
* the pulse-analyzer fallback pipeline
  (`summarizeFarcasterDiscussionOrXReactions`) — source file
  `src/unnamed/part_000` (first document).

HTTP requests are modelled by an oracle function from the request index to
the response (`Except` for network failure), so the theorems quantify over
every sequence of pages the backend may serve.  The possibly-nonterminating
`do/while` pagination loops are embedded with explicit fuel: running out of
fuel returns the accumulator with `finished := false`, so request-count and
length bounds hold for every fuel value.
-/

namespace YAN

/-- JavaScript truthiness of an optional string (used for `nextPageToken`,
`cursor`, `username`, `text`): absent (`undefined`/`null`) and the empty
string are falsy. -/
def strTruthy : Option String → Bool
  | none => false
  | some s => s ≠ ""

/-- JavaScript `a || b` for an optional string `a` and a default `b`. -/
def strOrElse (a : Option String) (b : String) : String :=
  match a with
  | none => b
  | some s => if s = "" then b else s

/-! ## Model of the JavaScript `Date` UTC accessors

The agents convert an epoch-milliseconds instant with
`new Date(ms).getUTCHours()` / `.getUTCDay()`.  For a nonnegative
epoch-milliseconds value these are the hour of day and the day of week
(0 = Sunday) of the instant in UTC; 1970-01-01 was a Thursday (day 4). -/

/-- Models `Date.prototype.getUTCHours` on a nonnegative epoch-ms instant. -/
def getUTCHours (ms : Nat) : Nat := ms / 3600000 % 24

/-- Models `Date.prototype.getUTCDay` on a nonnegative epoch-ms instant
(0 = Sunday .. 6 = Saturday; the Unix epoch fell on a Thursday). -/
def getUTCDay (ms : Nat) : Nat := (ms / 86400000 + 4) % 7

/-! ## Cast-timing-analyst agent (`src/unnamed/part_000`, second document) -/

/-- `MAX_CASTS_TO_FETCH_FOR_POST_TIME_ANALYSIS = 500`. -/
def MAX_CASTS_TO_FETCH_FOR_POST_TIME_ANALYSIS : Nat := 500

/-- `CAST_FETCH_PAGE_SIZE = 100`. -/
def CAST_FETCH_PAGE_SIZE : Nat := 100

/-- `FARCASTER_EPOCH_MS = 1609459200000` (January 1, 2021 UTC in ms). -/
def FARCASTER_EPOCH_MS : Nat := 1609459200000

/-- `farcasterEpochToDate`: epoch-ms instant of a raw Farcaster timestamp
(seconds since 2021-01-01T00:00:00Z). -/
def farcasterEpochToDate (fcTimestamp : Nat) : Nat :=
  FARCASTER_EPOCH_MS + fcTimestamp * 1000

/-- `castAddBody` of a Farcaster hub message (an object is truthy whenever
present, so only presence matters to the filter). -/
structure CastAddBody where
  text : Option String
deriving DecidableEq, Repr

/-- The `data` part of a `FarcasterMessage`. -/
structure CastData where
  type : String
  fid : Nat
  timestamp : Nat
  castAddBody : Option CastAddBody
deriving DecidableEq, Repr

/-- A message returned by the hub `castsByFid` endpoint. -/
structure FarcasterMessage where
  data : CastData
  hash : String
deriving DecidableEq, Repr

/-- The filter applied to each page:
`msg.data?.type === "MESSAGE_TYPE_CAST_ADD" && msg.data.castAddBody`. -/
def isCastAddMessage (msg : FarcasterMessage) : Bool :=
  msg.data.type = "MESSAGE_TYPE_CAST_ADD" && msg.data.castAddBody.isSome

/-- A `castsByFid` response body (`messages` and `nextPageToken` are both
optional in the upstream JSON). -/
structure CastsPage where
  messages : Option (List FarcasterMessage)
  nextPageToken : Option String
deriving DecidableEq, Repr

/-- A paginated casts source: the outcome of the `i`-th HTTP request the
loop performs (`Except.error` models an axios failure). -/
def CastsSource : Type := Nat → Except String CastsPage

/-- Result of the collection loop: accumulated cast-add messages, the
`error` variable, the number of HTTP requests performed, and whether the
loop terminated on its own (`false` means the fuel ran out first). -/
structure CastsCollectOut where
  casts : List FarcasterMessage
  error : Option String
  requests : Nat
  finished : Bool
deriving DecidableEq, Repr

/-- The `do { ... } while (nextPageToken)` body of `fetchAllUserCasts`:
`i` is the index of the next request, `acc` the `allCasts` accumulator. -/
def fetchCastsLoop (source : CastsSource) : Nat → Nat → List FarcasterMessage → CastsCollectOut
  | 0, i, acc => ⟨acc, none, i, false⟩
  | fuel + 1, i, acc =>
    match source i with
    | Except.error e =>
      -- catch: record the error and break
      ⟨acc, some ("Neynar Hub API error (castsByFid): " ++ e), i + 1, true⟩
    | Except.ok page =>
      let messages := page.messages.getD []
      let castAddMessages := messages.filter isCastAddMessage
      let acc1 := acc ++ castAddMessages
      let token1 := page.nextPageToken
      -- if (allCasts.length >= MAX) { slice; nextPageToken = undefined }
      if MAX_CASTS_TO_FETCH_FOR_POST_TIME_ANALYSIS ≤ acc1.length then
        ⟨acc1.take MAX_CASTS_TO_FETCH_FOR_POST_TIME_ANALYSIS, none, i + 1, true⟩
      else if strTruthy token1 then
        fetchCastsLoop source fuel (i + 1) acc1
      else
        ⟨acc1, none, i + 1, true⟩

/-- `fetchAllUserCasts`: run the pagination loop from an empty accumulator.
The `fid` only parametrises the URL, so it is absorbed into the source. -/
def fetchAllUserCasts (source : CastsSource) (fuel : Nat) : CastsCollectOut :=
  fetchCastsLoop source fuel 0 []

/-! ## Follower-analyst agent (`src/follower-analyst/index.ts`) -/

/-- `MAX_FOLLOWERS_TO_PROCESS = 150`. -/
def MAX_FOLLOWERS_TO_PROCESS : Nat := 150

/-- `FOLLOWER_FETCH_BATCH_SIZE = 50`. -/
def FOLLOWER_FETCH_BATCH_SIZE : Nat := 50

/-- The `user` object inside a follower entry (only the `fid` matters to
the collection loop; JS treats `fid = 0` as falsy). -/
structure NeynarUserRef where
  fid : Nat
deriving DecidableEq, Repr

/-- One element of the `users` array of a `/followers` response
(`follow.user` may be absent). -/
structure NeynarFollower where
  user : Option NeynarUserRef
deriving DecidableEq, Repr

/-- The `next` object of a `/followers` response (`cursor?: string | null`;
`none` covers both `null` and absence, which are equally falsy). -/
structure NextCursor where
  cursor : Option String
deriving DecidableEq, Repr

/-- A `/followers` response body as consumed by the loop
(`users?: NeynarFollower[]`, `next?: { cursor }`). -/
structure FollowersPage where
  users : Option (List NeynarFollower)
  next : Option NextCursor
deriving DecidableEq, Repr

/-- A followers source: outcome of the `i`-th `fetchUserFollowers` request,
which also receives the `limit` the loop asked for on that request. -/
def FollowersSource : Type := Nat → Nat → Except String FollowersPage

/-- Result of the follower pagination loop of `getTrueAudienceProfile.run`:
the `allFollowerFids` accumulator (before de-duplication), the
`fetchError` variable, the number of requests, and whether the loop
terminated on its own. -/
structure FollowersCollectOut where
  fids : List Nat
  fetchError : Option String
  requests : Nat
  finished : Bool
deriving DecidableEq, Repr

/-- The qualifying FIDs of a page: `forEach` pushes `follow.user.fid`
whenever `follow.user && follow.user.fid` is truthy. -/
def pageFids (users : List NeynarFollower) : List Nat :=
  users.filterMap fun follow =>
    match follow.user with
    | some u => if u.fid ≠ 0 then some u.fid else none
    | none => none

/-- The `while (fetchedFollowersCount < MAX_FOLLOWERS_TO_PROCESS)` loop of
`getTrueAudienceProfile.run`: `i` is the next request index, `count` the
`fetchedFollowersCount`, `acc` the `allFollowerFids` accumulator. -/
def followersLoop (source : FollowersSource) : Nat → Nat → Nat → List Nat → FollowersCollectOut
  | 0, i, _count, acc => ⟨acc, none, i, false⟩
  | fuel + 1, i, count, acc =>
    if count < MAX_FOLLOWERS_TO_PROCESS then
      let limit := min FOLLOWER_FETCH_BATCH_SIZE (MAX_FOLLOWERS_TO_PROCESS - count)
      if limit = 0 then ⟨acc, none, i, true⟩
      else
        match source i limit with
        | Except.error e =>
          -- record fetchError and break
          ⟨acc, some ("Neynar API error (followers): " ++ e), i + 1, true⟩
        | Except.ok page =>
          let users := page.users.getD []
          -- if (followersResponse.users && followersResponse.users.length > 0)
          let acc1 := if users.length > 0 then acc ++ pageFids users else acc
          let count1 := if users.length > 0 then count + users.length else count
          let cursor := page.next.bind NextCursor.cursor
          if strTruthy cursor then
            if MAX_FOLLOWERS_TO_PROCESS ≤ count1 then
              ⟨acc1, none, i + 1, true⟩
            else
              followersLoop source fuel (i + 1) count1 acc1
          else
            ⟨acc1, none, i + 1, true⟩
    else
      ⟨acc, none, i, true⟩

/-- The follower-FID collection phase of `getTrueAudienceProfile.run`. -/
def collectFollowerFids (source : FollowersSource) (fuel : Nat) : FollowersCollectOut :=
  followersLoop source fuel 0 0 []

/-- `[...new Set(allFollowerFids)]`: JS `Set` keeps the first occurrence of
each element, in insertion order.  `seen` tracks already-emitted elements. -/
def dedupeAux {α : Type} [DecidableEq α] : List α → List α → List α
  | [], _ => []
  | x :: xs, seen =>
    if x ∈ seen then dedupeAux xs seen else x :: dedupeAux xs (x :: seen)

/-- `dedupe`: first-occurrence de-duplication, as `[...new Set(xs)]`. -/
def dedupe {α : Type} [DecidableEq α] (xs : List α) : List α :=
  dedupeAux xs []

/-! ## Posting-time analysis (`analyzeOptimalPostingTimesUTC`)

The JS code keys its tally objects by strings (`hour.toString().padStart(2,
0-char)` and `dayOfWeek.toString()`); the encoding is injective on the
domain (hours 0–23, weekdays 0–6), so the tallies are modelled as
association lists keyed by the numbers themselves, with the string
rendering applied where the code reads the keys back out.  Property
insertion order is modelled by list order. -/

/-- An apostrophe (U+0027), used in the summary text of the source. -/
def apos : String := String.singleton (Char.ofNat 39)

/-- `hour.toString().padStart(2, 0-char)` for an hour in 0–23. -/
def padHour (h : Nat) : String :=
  (if h < 10 then "0" else "") ++ toString h

/-- `daysOfWeek` from `analyzeOptimalPostingTimesUTC`. -/
def daysOfWeek : List String :=
  ["Sunday", "Monday", "Tuesday", "Wednesday", "Thursday", "Friday", "Saturday"]

/-- `obj[key] = { cast_count: (obj[key]?.cast_count || 0) + 1 }` on an
association list: an existing key is updated in place, a new key is
appended. -/
def bump (tally : List (Nat × Nat)) (key : Nat) : List (Nat × Nat) :=
  match tally with
  | [] => [(key, 1)]
  | (k, c) :: rest =>
    if k = key then (k, c + 1) :: rest else (k, c) :: bump rest key

/-- The tally-building `for` loop of `analyzeOptimalPostingTimesUTC`: each
cast with `data.type === "MESSAGE_TYPE_CAST_ADD"` is counted once in the
hourly tally (at its UTC hour) and once in the daily tally (at its UTC
weekday). -/
def bucketizeCasts (casts : List FarcasterMessage) :
    List (Nat × Nat) × List (Nat × Nat) :=
  casts.foldl
    (fun acc cast =>
      if cast.data.type = "MESSAGE_TYPE_CAST_ADD" then
        (bump acc.1 (getUTCHours (farcasterEpochToDate cast.data.timestamp)),
         bump acc.2 (getUTCDay (farcasterEpochToDate cast.data.timestamp)))
      else acc)
    ([], [])

/-- The peak-scan loop of `analyzeOptimalPostingTimesUTC` (it appears twice
in the source, once for hours and once for days, with identical
structure): a strictly greater count resets the peak list to that key, an
equal count appends the key. -/
def findPeaks {α : Type} (tally : List (α × Nat)) : List α × Nat :=
  tally.foldl
    (fun acc kv =>
      if acc.2 < kv.2 then ([kv.1], kv.2)
      else if kv.2 = acc.2 then (acc.1 ++ [kv.1], acc.2)
      else acc)
    ([], 0)

/-- The report object built by `analyzeOptimalPostingTimesUTC`.  The
zero-cast early return of the source omits the peak and timezone keys;
that absence is modelled by `none` / empty lists / zero. -/
structure AnalysisResult where
  summary : String
  reference_timezone : Option String
  peak_posting_hours_utc : List String
  peak_posting_days_utc : List String
  hourly_activity_utc : List (String × Nat)
  daily_activity_utc : List (String × Nat)
  total_casts_analyzed : Nat
deriving DecidableEq, Repr

/-- `analyzeOptimalPostingTimesUTC`.  The day-peak loop of the source
pushes `daysOfWeek[parseInt(dayIndex)]` instead of the raw key; since the
reset/append decisions depend only on the counts, this equals mapping the
day names over the peak keys afterwards. -/
def analyzeOptimalPostingTimesUTC (casts : List FarcasterMessage) : AnalysisResult :=
  if casts.length = 0 then
    { summary := "No cast data available to analyze posting times."
      reference_timezone := none
      peak_posting_hours_utc := []
      peak_posting_days_utc := []
      hourly_activity_utc := []
      daily_activity_utc := []
      total_casts_analyzed := 0 }
  else
    let tallies := bucketizeCasts casts
    let hourlyActivity := tallies.1
    let dailyActivity := tallies.2
    let hourPeaks := findPeaks hourlyActivity
    let peakHoursUTC := hourPeaks.1.map padHour
    let dayPeaks := findPeaks dailyActivity
    let peakDaysUTC := dayPeaks.1.map (fun d => daysOfWeek.getD d "")
    let formattedHourly := hourlyActivity.map
      (fun kv => (padHour kv.1 ++ ":00-" ++ padHour kv.1 ++ ":59 UTC", kv.2))
    let formattedDaily := dailyActivity.map
      (fun kv => (daysOfWeek.getD kv.1 "" ++ " (UTC)", kv.2))
    let base := "Based on " ++ toString casts.length ++
      " of their recent casts (up to " ++
      toString MAX_CASTS_TO_FETCH_FOR_POST_TIME_ANALYSIS ++
      " analyzed), times reported in UTC: "
    let mid :=
      if 0 < peakDaysUTC.length && 0 < peakHoursUTC.length then
        "This user most frequently posts on " ++
          String.intercalate ", " peakDaysUTC ++
          " (UTC), particularly around " ++
          String.intercalate ", " (peakHoursUTC.map (fun h => h ++ ":00")) ++
          " UTC. "
      else
        "Could not determine clear peak posting times from the available cast data."
    let post := " (Note: This analysis is based on the user" ++ apos ++
      "s own posting frequency in UTC. Convert to local timezone (e.g., IST is UTC+5:30) for local insights. True optimal times would correlate this with audience engagement.)"
    { summary := base ++ mid ++ post
      reference_timezone := some "UTC"
      peak_posting_hours_utc := peakHoursUTC.map (fun h => h ++ ":00 UTC")
      peak_posting_days_utc := peakDaysUTC
      hourly_activity_utc := formattedHourly
      daily_activity_utc := formattedDaily
      total_casts_analyzed := casts.length }

/-! ## Pulse-analyzer fallback pipeline
(`summarizeFarcasterDiscussionOrXReactions`, `src/unnamed/part_000`,
first document) -/

/-- Does `pat` lead `l` (element-wise equality at the front)? -/
def charsLeading : List Char → List Char → Bool
  | [], _ => true
  | _ :: _, [] => false
  | a :: as, b :: bs => a = b && charsLeading as bs

/-- Substring occurrence on character lists (JS `String.includes`). -/
def charsContain : List Char → List Char → Bool
  | [], pat => pat.isEmpty
  | h :: t, pat => charsLeading pat (h :: t) || charsContain t pat

/-- JS `s.includes(pat)`. -/
def strIncludes (s pat : String) : Bool :=
  charsContain s.data pat.data

/-- JS `s.toLowerCase()` (ASCII case folding suffices for the literals the
code compares against). -/
def strToLower (s : String) : String :=
  String.mk (s.data.map Char.toLower)

/-- JS template-literal rendering of a possibly-undefined string. -/
def jsShow : Option String → String
  | none => "undefined"
  | some s => s

/-- Author of a cast as seen by the pulse analyzer. -/
structure NeynarUser where
  fid : Nat
  username : Option String
deriving DecidableEq, Repr

/-- A cast as consumed by `summarizeFarcasterDiscussionOrXReactions`. -/
structure NeynarCast where
  hash : String
  author : NeynarUser
  text : Option String
deriving DecidableEq, Repr

/-- The two ways the code calls `makeXaiRequest`: without
`search_parameters` (the local-summary stage) or with
`{ mode: "on", sources: [{ type: "x" }] }` (the external X-search
stage). -/
inductive XaiCallKind where
  | localSummary
  | xSearch
deriving DecidableEq, Repr

/-- Outcome of a `makeXaiRequest` call (`content` xor `error`, both
technically optional). -/
structure XaiOutcome where
  content : Option String
  error : Option String
deriving DecidableEq, Repr

/-- `@${r.author.username || `fid:${r.author.fid}`}` (JS `||` treats an
absent or empty username as falsy). -/
def authorTag (u : NeynarUser) : String :=
  strOrElse u.username ("fid:" ++ toString u.fid)

/-- `summarizeFarcasterDiscussionOrXReactions`, instrumented with the list
of `makeXaiRequest` invocations it performs (in order).  The external LLM
is an oracle from the call kind and prompt to an outcome. -/
def summarizeFarcasterDiscussionOrXReactions
    (xai : XaiCallKind → String → XaiOutcome)
    (catalystCast : NeynarCast) (directReplies : List NeynarCast) :
    String × List XaiCallKind :=
  let catalystText := strOrElse catalystCast.text "a cast with no text"
  if 0 < directReplies.length then
    let repliesText := String.intercalate "\n---\n"
      ((directReplies.map fun r =>
        "@" ++ authorTag r.author ++ ": " ++ jsShow r.text).take 7)
    let prompt :=
      "\n            Catalyst Farcaster Cast by @" ++
        authorTag catalystCast.author ++ ": \"" ++ catalystText ++
        "\"\n            Recent Replies on Farcaster (sample):\n            " ++
        repliesText ++
        "\n            Based on these, what is the main topic of the catalyst cast and what are the 2-3 primary themes or sentiments in the Farcaster replies? Be concise."
    let result := xai XaiCallKind.localSummary prompt
    (strOrElse result.content
       ("Error summarizing Farcaster replies: " ++ jsShow result.error),
     [XaiCallKind.localSummary])
  else
    let prompt :=
      "The following Farcaster cast is gaining attention: \"@" ++
        authorTag catalystCast.author ++ ": " ++ catalystText ++
        "\"\n        Scan X (Twitter) for discussions, reactions, or context related to the topic of this cast that have occurred in the last 24 hours.\n        Summarize the general sentiment or key points from X regarding this topic."
    let result := xai XaiCallKind.xSearch prompt
    let out :=
      match result.content with
      | some c =>
        if c ≠ "" && !(strIncludes (strToLower c) "error") &&
            !(strIncludes (strToLower c) "could not find") then
          "No direct Farcaster replies were available for analysis. However, related discussions on X (Twitter) in the last 24 hours about \"" ++
            catalystText.take 50 ++ "...\" show: " ++ c
        else
          "No direct Farcaster replies were available for analysis, and could not fetch significant related X discussions for \"" ++
            catalystText.take 50 ++ "...\". The catalyst cast" ++ apos ++
            "s topic itself is the primary focus."
      | none =>
        "No direct Farcaster replies were available for analysis, and could not fetch significant related X discussions for \"" ++
          catalystText.take 50 ++ "...\". The catalyst cast" ++ apos ++
          "s topic itself is the primary focus."
    (out, [XaiCallKind.xSearch])

/-! ## Auxiliary notions used by the statements -/

/-- The qualifying (cast-add) messages of one `castsByFid` page. -/
def qualCasts (p : CastsPage) : List FarcasterMessage :=
  (p.messages.getD []).filter isCastAddMessage

/-- All qualifying messages of a page sequence, in page order. -/
def qualCat (ps : List CastsPage) : List FarcasterMessage :=
  (ps.map qualCasts).flatten

/-- The casts source serves the pages `ps` as the responses to consecutive
requests starting at index `i`. -/
def sourceServes (source : CastsSource) : Nat → List CastsPage → Prop
  | _, [] => True
  | i, p :: ps => source i = Except.ok p ∧ sourceServes source (i + 1) ps

/-- The follower entries of one `/followers` page. -/
def pageEntries (p : FollowersPage) : List NeynarFollower :=
  p.users.getD []

/-- Total number of follower entries across a page sequence (qualifying or
not: this is what `fetchedFollowersCount` counts). -/
def entriesCount (ps : List FollowersPage) : Nat :=
  (ps.map fun p => (pageEntries p).length).sum

/-- All qualifying follower FIDs of a page sequence, in page order. -/
def fidsCat (ps : List FollowersPage) : List Nat :=
  (ps.map fun p => pageFids (pageEntries p)).flatten

/-- The followers source serves the pages `ps` (whatever limit is asked
for) as the responses to consecutive requests starting at index `i`. -/
def followersServes (source : FollowersSource) : Nat → List FollowersPage → Prop
  | _, [] => True
  | i, p :: ps =>
    (∀ lim, source i lim = Except.ok p) ∧ followersServes source (i + 1) ps

/-- `followersResponse.next?.cursor`. -/
def pageCursor (p : FollowersPage) : Option String :=
  p.next.bind NextCursor.cursor

/-- Sum of the counts of a tally. -/
def tallySum (t : List (Nat × Nat)) : Nat :=
  (t.map Prod.snd).sum

/-- The maximum count of a tally (`0` on the empty tally), as the peak
loop tracks it. -/
def maxTally {α : Type} (t : List (α × Nat)) : Nat :=
  t.foldl (fun a kv => max a kv.2) 0

/-- Whether a message has the cast-add type tag (the tally-building loop
of `analyzeOptimalPostingTimesUTC` tests only the type). -/
def isCastAddType (c : FarcasterMessage) : Bool :=
  c.data.type == "MESSAGE_TYPE_CAST_ADD"

/-! ## Concrete sources used in counterexamples and witnesses -/

/-- A cast-add hub message with the given raw timestamp. -/
def mkCastAdd (t : Nat) : FarcasterMessage :=
  ⟨⟨"MESSAGE_TYPE_CAST_ADD", 1, t, some ⟨some "hello"⟩⟩, "0x01"⟩

/-- A non-cast-add hub message (a reaction). -/
def mkReaction : FarcasterMessage :=
  ⟨⟨"MESSAGE_TYPE_REACTION_ADD", 1, 0, none⟩, "0x02"⟩

/-- A casts source whose every page holds one reaction and a continuation
token: every message is filtered out, yet pagination continues. -/
def spinCastsSource : CastsSource :=
  fun _ => Except.ok ⟨some [mkReaction], some "t"⟩

/-- A casts source whose every page holds a full page of qualifying
messages and a continuation token. -/
def fullCastsSource : CastsSource :=
  fun _ => Except.ok ⟨some (List.replicate CAST_FETCH_PAGE_SIZE (mkCastAdd 7)), some "t"⟩

/-- A casts source serving one qualifying message and then no token. -/
def tinyCastsSource : CastsSource :=
  fun i => if i = 0 then Except.ok ⟨some [mkCastAdd 3], some "t"⟩
           else Except.ok ⟨some [mkCastAdd 4], none⟩

/-- A casts source serving one good page and then failing. -/
def failingCastsSource : CastsSource :=
  fun i => if i = 0 then Except.ok ⟨some [mkCastAdd 3], some "t"⟩
           else Except.error "boom"

/-- A followers page with `n` entries, all with FID `f`, and an optional
cursor. -/
def mkFollowersPage (n : Nat) (f : Nat) (cur : Option String) : FollowersPage :=
  ⟨some (List.replicate n ⟨some ⟨f⟩⟩), some ⟨cur⟩⟩

/-- A followers source whose single page over-serves the requested limit:
151 distinct-FID entries on the first request. -/
def overserveFollowersSource : FollowersSource :=
  fun _ _ => Except.ok ⟨some ((List.range 151).map fun j => ⟨some ⟨j + 1⟩⟩), some ⟨none⟩⟩

/-- A followers source that always serves exactly the requested limit of
entries plus a cursor. -/
def fullFollowersSource : FollowersSource :=
  fun _ lim => Except.ok ⟨some (List.replicate lim ⟨some ⟨9⟩⟩), some ⟨some "c"⟩⟩

/-- A followers source serving a page of 150 entries whose FIDs are all
`0` (falsy in JS, hence never accumulated) with a cursor, then a page with
one real FID and no cursor. -/
def zeroFidFollowersSource : FollowersSource :=
  fun i _ => if i = 0 then Except.ok (mkFollowersPage 150 0 (some "a"))
             else Except.ok (mkFollowersPage 1 7 none)

/-- A followers source serving two short pages and then stopping. -/
def tinyFollowersSource : FollowersSource :=
  fun i _ => if i = 0 then Except.ok (mkFollowersPage 2 5 (some "a"))
             else Except.ok (mkFollowersPage 1 6 none)

/-- A followers source serving one good page and then failing. -/
def failingFollowersSource : FollowersSource :=
  fun i _ => if i = 0 then Except.ok (mkFollowersPage 2 5 (some "a"))
             else Except.error "down"

/-- `maxTally` started from an arbitrary running maximum (the state of the
peak loop part-way through). -/
def maxTallyFrom {α : Type} (m : Nat) (t : List (α × Nat)) : Nat :=
  t.foldl (fun a kv => max a kv.2) m

/-! # Lemmas and claim theorems -/

section Dedupe

variable {α : Type} [DecidableEq α]

theorem dedupeAux_not_mem_seen :
    ∀ (l seen : List α) (a : α), a ∈ dedupeAux l seen → a ∉ seen := by
  intro l
  induction l with
  | nil => intro seen a h; simp [dedupeAux] at h
  | cons x xs ih =>
    intro seen a h
    by_cases hx : x ∈ seen
    · rw [dedupeAux, if_pos hx] at h
      exact ih seen a h
    · rw [dedupeAux, if_neg hx] at h
      rcases List.mem_cons.mp h with rfl | h2
      · exact hx
      · intro hs
        exact ih (x :: seen) a h2 (List.mem_cons_of_mem x hs)

theorem dedupeAux_nodup : ∀ (l seen : List α), (dedupeAux l seen).Nodup := by
  intro l
  induction l with
  | nil => intro seen; simp [dedupeAux]
  | cons x xs ih =>
    intro seen
    by_cases hx : x ∈ seen
    · rw [dedupeAux, if_pos hx]; exact ih seen
    · rw [dedupeAux, if_neg hx]
      refine List.nodup_cons.mpr ⟨?_, ih (x :: seen)⟩
      intro hmem
      exact dedupeAux_not_mem_seen xs (x :: seen) x hmem (List.mem_cons_self x seen)

theorem dedupeAux_eq_self :
    ∀ (l seen : List α), l.Nodup → (∀ a ∈ l, a ∉ seen) → dedupeAux l seen = l := by
  intro l
  induction l with
  | nil => intro seen _ _; rfl
  | cons x xs ih =>
    intro seen hnd hout
    have hx : x ∉ seen := hout x (List.mem_cons_self x xs)
    rw [dedupeAux, if_neg hx]
    have hnd' := List.nodup_cons.mp hnd
    have : dedupeAux xs (x :: seen) = xs := by
      refine ih (x :: seen) hnd'.2 ?_
      intro a ha
      intro hmem
      rcases List.mem_cons.mp hmem with rfl | h2
      · exact hnd'.1 ha
      · exact hout a (List.mem_cons_of_mem x ha) h2
    rw [this]

theorem dedupeAux_mem :
    ∀ (l seen : List α) (a : α), a ∈ dedupeAux l seen ↔ a ∈ l ∧ a ∉ seen := by
  intro l
  induction l with
  | nil => intro seen a; simp [dedupeAux]
  | cons x xs ih =>
    intro seen a
    by_cases hx : x ∈ seen
    · rw [dedupeAux, if_pos hx, ih]
      constructor
      · rintro ⟨h1, h2⟩; exact ⟨List.mem_cons_of_mem x h1, h2⟩
      · rintro ⟨h1, h2⟩
        rcases List.mem_cons.mp h1 with rfl | h3
        · exact absurd hx h2
        · exact ⟨h3, h2⟩
    · rw [dedupeAux, if_neg hx]
      by_cases hax : a = x
      · subst hax
        simp [List.mem_cons, hx]
      · constructor
        · intro h
          rcases List.mem_cons.mp h with rfl | h2
          · exact absurd rfl hax
          · rcases (ih (x :: seen) a).mp h2 with ⟨h3, h4⟩
            exact ⟨List.mem_cons_of_mem x h3, fun hs => h4 (List.mem_cons_of_mem x hs)⟩
        · rintro ⟨h1, h2⟩
          rcases List.mem_cons.mp h1 with rfl | h3
          · exact absurd rfl hax
          · refine List.mem_cons_of_mem x ((ih (x :: seen) a).mpr ⟨h3, ?_⟩)
            intro hmem
            rcases List.mem_cons.mp hmem with rfl | h4
            · exact hax rfl
            · exact h2 h4

end Dedupe

/-- C8: `dedupe` (the `[...new Set(allFollowerFids)]` step of
`getTrueAudienceProfile.run`) is idempotent, and it only removes exact
duplicates: membership is preserved exactly. -/
theorem dedupe_idempotent :
    ∀ xs : List Nat,
      dedupe (dedupe xs) = dedupe xs ∧ ∀ a : Nat, a ∈ dedupe xs ↔ a ∈ xs := by
  intro xs
  constructor
  · exact dedupeAux_eq_self (dedupe xs) [] (dedupeAux_nodup xs [])
      (fun a _ => List.not_mem_nil a)
  · intro a
    rw [dedupe, dedupeAux_mem]
    simp

/-- C3: a raw Farcaster timestamp converts to
`EPOCH_REFERENCE + t * 1000` milliseconds; timestamp `0` lands on
2021-01-01T00:00:00Z, whose UTC hour bucket is `0` and UTC weekday bucket
is `5` (Friday); the bucketizer of `analyzeOptimalPostingTimesUTC` places
a cast-add message at exactly the UTC hour-of-day (0–23) and UTC
day-of-week (0 = Sunday .. 6 = Saturday) of that instant. -/
theorem farcaster_epoch_conversion :
    (∀ t : Nat, farcasterEpochToDate t = FARCASTER_EPOCH_MS + t * 1000) ∧
    farcasterEpochToDate 0 = 1609459200000 ∧
    getUTCHours (farcasterEpochToDate 0) = 0 ∧
    getUTCDay (farcasterEpochToDate 0) = 5 ∧
    (∀ ms : Nat, getUTCHours ms < 24 ∧ getUTCDay ms < 7) ∧
    (∀ c : FarcasterMessage, c.data.type = "MESSAGE_TYPE_CAST_ADD" →
      bucketizeCasts [c] =
        ([(getUTCHours (farcasterEpochToDate c.data.timestamp), 1)],
         [(getUTCDay (farcasterEpochToDate c.data.timestamp), 1)])) := by
  refine ⟨fun t => rfl, by decide, by decide, by decide, ?_, ?_⟩
  · intro ms
    exact ⟨Nat.mod_lt _ (by decide), Nat.mod_lt _ (by decide)⟩
  · intro c hc
    simp [bucketizeCasts, bump, hc]

/-- Witness for C3: the bucketizer conjunct applied to a concrete cast-add
message with raw timestamp `0`. -/
theorem farcaster_epoch_conversion_witness :
    bucketizeCasts [mkCastAdd 0] =
      ([(getUTCHours (farcasterEpochToDate 0), 1)],
       [(getUTCDay (farcasterEpochToDate 0), 1)]) :=
  farcaster_epoch_conversion.2.2.2.2.2 (mkCastAdd 0) rfl

/-- C5: the fallback pipeline of the pulse analyzer invokes exactly one
`makeXaiRequest` stage: the external X-search stage (and never the
local-summary stage) when the collected direct-reply set is empty, and the
local-summary stage (and never the external-search stage) when at least
one direct reply was collected. -/
theorem fallback_pipeline_stage_selection :
    ∀ (xai : XaiCallKind → String → XaiOutcome) (catalystCast : NeynarCast)
      (directReplies : List NeynarCast),
      (summarizeFarcasterDiscussionOrXReactions xai catalystCast directReplies).2 =
        if 0 < directReplies.length then [XaiCallKind.localSummary]
        else [XaiCallKind.xSearch] := by
  intro xai c rs
  by_cases h : 0 < rs.length <;>
    simp only [summarizeFarcasterDiscussionOrXReactions, h, if_pos, if_neg,
      if_true, if_false, ite_true, ite_false]

/-- C9: on zero collected items the bucketizer returns two empty tallies,
`findPeaks` on an empty tally returns an empty peak set with peak value
`0`, and `analyzeOptimalPostingTimesUTC` returns the early no-data report
(its summary says there is no data; no numeric peak is reported). -/
theorem empty_input_no_data :
    bucketizeCasts [] = ([], []) ∧
    findPeaks ([] : List (Nat × Nat)) = ([], 0) ∧
    analyzeOptimalPostingTimesUTC [] =
      { summary := "No cast data available to analyze posting times."
        reference_timezone := none
        peak_posting_hours_utc := []
        peak_posting_days_utc := []
        hourly_activity_utc := []
        daily_activity_utc := []
        total_casts_analyzed := 0 } :=
  ⟨rfl, rfl, rfl⟩

section FindPeaks

variable {α : Type}

theorem maxTallyFrom_ge : ∀ (l : List (α × Nat)) (m : Nat), m ≤ maxTallyFrom m l := by
  intro l
  induction l with
  | nil => intro m; exact Nat.le_refl m
  | cons kv t ih =>
    intro m
    calc m ≤ max m kv.2 := Nat.le_max_left _ _
      _ ≤ maxTallyFrom (max m kv.2) t := ih _

theorem findPeaks_fold_snd :
    ∀ (l : List (α × Nat)) (ps : List α) (m : Nat),
      (l.foldl (fun acc kv =>
        if acc.2 < kv.2 then ([kv.1], kv.2)
        else if kv.2 = acc.2 then (acc.1 ++ [kv.1], acc.2)
        else acc) (ps, m)).2 = maxTallyFrom m l := by
  intro l
  induction l with
  | nil => intro ps m; rfl
  | cons kv t ih =>
    intro ps m
    rw [List.foldl_cons]
    by_cases h1 : m < kv.2
    · rw [if_pos h1, ih]
      show maxTallyFrom kv.2 t = maxTallyFrom (max m kv.2) t
      rw [Nat.max_eq_right (Nat.le_of_lt h1)]
    · by_cases h2 : kv.2 = m
      · rw [if_neg h1, if_pos h2, ih]
        show maxTallyFrom m t = maxTallyFrom (max m kv.2) t
        rw [Nat.max_eq_left (Nat.le_of_eq h2)]
      · rw [if_neg h1, if_neg h2, ih]
        show maxTallyFrom m t = maxTallyFrom (max m kv.2) t
        rw [Nat.max_eq_left (by omega)]

theorem findPeaks_fold_fst :
    ∀ (l : List (α × Nat)) (ps : List α) (m : Nat),
      (l.foldl (fun acc kv =>
        if acc.2 < kv.2 then ([kv.1], kv.2)
        else if kv.2 = acc.2 then (acc.1 ++ [kv.1], acc.2)
        else acc) (ps, m)).1 =
      (if maxTallyFrom m l = m then ps else []) ++
        (l.filter fun kv => kv.2 == maxTallyFrom m l).map Prod.fst := by
  intro l
  induction l with
  | nil =>
    intro ps m
    show ps = (if m = m then ps else []) ++ []
    simp
  | cons kv t ih =>
    intro ps m
    rw [List.foldl_cons]
    have hMcons : maxTallyFrom m (kv :: t) = maxTallyFrom (max m kv.2) t := rfl
    by_cases h1 : m < kv.2
    · rw [if_pos h1, ih [kv.1] kv.2, hMcons,
        Nat.max_eq_right (Nat.le_of_lt h1)]
      have hge : kv.2 ≤ maxTallyFrom kv.2 t := maxTallyFrom_ge t kv.2
      have hne : maxTallyFrom kv.2 t ≠ m := by omega
      rw [if_neg hne, List.filter_cons]
      by_cases h3 : kv.2 = maxTallyFrom kv.2 t
      · have hb : (kv.2 == maxTallyFrom kv.2 t) = true := beq_iff_eq.mpr h3
        rw [hb, if_pos h3.symm]
        simp
      · have hb : (kv.2 == maxTallyFrom kv.2 t) = false :=
          beq_eq_false_iff_ne.mpr h3
        rw [hb]
        rw [if_neg (fun h => h3 h.symm)]
        simp
    · by_cases h2 : kv.2 = m
      · rw [if_neg h1, if_pos h2, ih (ps ++ [kv.1]) m, hMcons,
          Nat.max_eq_left (Nat.le_of_eq h2)]
        rw [List.filter_cons]
        by_cases h3 : maxTallyFrom m t = m
        · have hb : (kv.2 == maxTallyFrom m t) = true :=
            beq_iff_eq.mpr (h2.trans h3.symm)
          rw [hb, if_pos h3, if_pos h3]
          simp
        · have hb : (kv.2 == maxTallyFrom m t) = false :=
            beq_eq_false_iff_ne.mpr (fun h => h3 (h.symm.trans h2))
          rw [hb, if_neg h3, if_neg h3]
          simp
      · rw [if_neg h1, if_neg h2, ih ps m, hMcons,
          Nat.max_eq_left (by omega : kv.2 ≤ m)]
        rw [List.filter_cons]
        have hge : m ≤ maxTallyFrom m t := maxTallyFrom_ge t m
        have hb : (kv.2 == maxTallyFrom m t) = false :=
          beq_eq_false_iff_ne.mpr (by omega)
        rw [hb]
        simp

end FindPeaks

/-- C4: on every tally, the peak loop of `analyzeOptimalPostingTimesUTC`
returns exactly the keys whose count equals the maximum count, in
first-seen iteration order, together with that maximum as the peak value;
in particular the hour tally `{9: 3, 14: 3, 20: 1}` yields peak keys
`[9, 14]` and peak value `3`. -/
theorem findPeaks_spec :
    (∀ tally : List (Nat × Nat),
      findPeaks tally =
        ((tally.filter fun kv => kv.2 == maxTally tally).map Prod.fst,
          maxTally tally)) ∧
    findPeaks [(9, 3), (14, 3), (20, 1)] = ([9, 14], 3) := by
  constructor
  · intro tally
    have h1 := findPeaks_fold_fst (α := Nat) tally [] 0
    have h2 := findPeaks_fold_snd (α := Nat) tally [] 0
    refine Prod.ext_iff.mpr ⟨?_, ?_⟩
    · rw [show maxTally tally = maxTallyFrom 0 tally from rfl]
      exact h1.trans (by split <;> simp)
    · rw [show maxTally tally = maxTallyFrom 0 tally from rfl]
      exact h2
  · decide

section Bucketize

theorem tallySum_bump : ∀ (t : List (Nat × Nat)) (k : Nat),
    tallySum (bump t k) = tallySum t + 1 := by
  intro t k
  induction t with
  | nil => rfl
  | cons kv rest ih =>
    obtain ⟨a, c⟩ := kv
    by_cases h : a = k
    · simp [bump, h, tallySum]
      omega
    · simp only [bump, if_neg h]
      simp [tallySum] at ih ⊢
      omega

theorem bump_keys_lt {n : Nat} : ∀ (t : List (Nat × Nat)) (k : Nat),
    (∀ kv ∈ t, kv.1 < n) → k < n → ∀ kv ∈ bump t k, kv.1 < n := by
  intro t
  induction t with
  | nil =>
    intro k _ hk kv hkv
    simp [bump] at hkv
    rw [hkv]
    exact hk
  | cons kv0 rest ih =>
    intro k ht hk kv hkv
    obtain ⟨a, c⟩ := kv0
    by_cases h : a = k
    · rw [bump, if_pos h] at hkv
      rcases List.mem_cons.mp hkv with rfl | h2
      · exact ht (a, c) (List.mem_cons_self _ _)
      · exact ht kv (List.mem_cons_of_mem _ h2)
    · rw [bump, if_neg h] at hkv
      rcases List.mem_cons.mp hkv with rfl | h2
      · exact ht (a, c) (List.mem_cons_self _ _)
      · exact ih k (fun kv' hkv' => ht kv' (List.mem_cons_of_mem _ hkv')) hk kv h2

theorem bucketize_fold_inv :
    ∀ (casts : List FarcasterMessage) (h d : List (Nat × Nat)),
      (∀ kv ∈ h, kv.1 < 24) → (∀ kv ∈ d, kv.1 < 7) →
      (∀ kv ∈ (casts.foldl
        (fun acc cast =>
          if cast.data.type = "MESSAGE_TYPE_CAST_ADD" then
            (bump acc.1 (getUTCHours (farcasterEpochToDate cast.data.timestamp)),
             bump acc.2 (getUTCDay (farcasterEpochToDate cast.data.timestamp)))
          else acc) (h, d)).1, kv.1 < 24) ∧
      (∀ kv ∈ (casts.foldl
        (fun acc cast =>
          if cast.data.type = "MESSAGE_TYPE_CAST_ADD" then
            (bump acc.1 (getUTCHours (farcasterEpochToDate cast.data.timestamp)),
             bump acc.2 (getUTCDay (farcasterEpochToDate cast.data.timestamp)))
          else acc) (h, d)).2, kv.1 < 7) ∧
      tallySum (casts.foldl
        (fun acc cast =>
          if cast.data.type = "MESSAGE_TYPE_CAST_ADD" then
            (bump acc.1 (getUTCHours (farcasterEpochToDate cast.data.timestamp)),
             bump acc.2 (getUTCDay (farcasterEpochToDate cast.data.timestamp)))
          else acc) (h, d)).1 = tallySum h + (casts.filter isCastAddType).length ∧
      tallySum (casts.foldl
        (fun acc cast =>
          if cast.data.type = "MESSAGE_TYPE_CAST_ADD" then
            (bump acc.1 (getUTCHours (farcasterEpochToDate cast.data.timestamp)),
             bump acc.2 (getUTCDay (farcasterEpochToDate cast.data.timestamp)))
          else acc) (h, d)).2 = tallySum d + (casts.filter isCastAddType).length := by
  intro casts
  induction casts with
  | nil =>
    intro h d hh hd
    exact ⟨hh, hd, by simp, by simp⟩
  | cons c rest ih =>
    intro h d hh hd
    rw [List.foldl_cons, List.filter_cons]
    by_cases hc : c.data.type = "MESSAGE_TYPE_CAST_ADD"
    · have hct : isCastAddType c = true := beq_iff_eq.mpr hc
      rw [if_pos hc, hct]
      have hhour : getUTCHours (farcasterEpochToDate c.data.timestamp) < 24 :=
        Nat.mod_lt _ (by decide)
      have hday : getUTCDay (farcasterEpochToDate c.data.timestamp) < 7 :=
        Nat.mod_lt _ (by decide)
      have := ih (bump h (getUTCHours (farcasterEpochToDate c.data.timestamp)))
        (bump d (getUTCDay (farcasterEpochToDate c.data.timestamp)))
        (bump_keys_lt h _ hh hhour) (bump_keys_lt d _ hd hday)
      refine ⟨this.1, this.2.1, ?_, ?_⟩
      · rw [this.2.2.1, tallySum_bump]
        simp
        omega
      · rw [this.2.2.2, tallySum_bump]
        simp
        omega
    · have hct : isCastAddType c = false := by
        simp [isCastAddType]
        exact hc
      rw [if_neg hc, hct]
      simpa using ih h d hh hd

end Bucketize

/-- C10: every processed cast-add item lands in exactly one hour bucket
and one weekday bucket: all hourly-tally keys lie in 0–23, all daily-tally
keys lie in 0–6, and both tallies sum to the number of cast-add items. -/
theorem bucketize_partition :
    ∀ casts : List FarcasterMessage,
      ((bucketizeCasts casts).1.all fun kv => decide (kv.1 < 24)) = true ∧
      ((bucketizeCasts casts).2.all fun kv => decide (kv.1 < 7)) = true ∧
      tallySum (bucketizeCasts casts).1 = (casts.filter isCastAddType).length ∧
      tallySum (bucketizeCasts casts).2 = (casts.filter isCastAddType).length := by
  intro casts
  have h := bucketize_fold_inv casts [] [] (by simp) (by simp)
  refine ⟨?_, ?_, ?_, ?_⟩
  · rw [List.all_eq_true]
    intro kv hkv
    exact decide_eq_true (h.1 kv hkv)
  · rw [List.all_eq_true]
    intro kv hkv
    exact decide_eq_true (h.2.1 kv hkv)
  · simpa [tallySum] using h.2.2.1
  · simpa [tallySum] using h.2.2.2

section CastsCollector

theorem qualCat_append (xs ys : List CastsPage) :
    qualCat (xs ++ ys) = qualCat xs ++ qualCat ys := by
  simp [qualCat]

theorem sourceServes_append (source : CastsSource) :
    ∀ (xs ys : List CastsPage) (i : Nat), sourceServes source i (xs ++ ys) →
      sourceServes source i xs ∧ sourceServes source (i + xs.length) ys := by
  intro xs
  induction xs with
  | nil =>
    intro ys i h
    exact ⟨trivial, by simpa using h⟩
  | cons p rest ih =>
    intro ys i h
    simp only [List.cons_append, sourceServes] at h
    obtain ⟨h1, h2⟩ := h
    obtain ⟨h3, h4⟩ := ih ys (i + 1) h2
    refine ⟨⟨h1, h3⟩, ?_⟩
    have : i + 1 + rest.length = i + (rest.length + 1) := by omega
    rw [this] at h4
    simpa using h4

theorem fetchCastsLoop_casts_le (source : CastsSource) :
    ∀ (fuel i : Nat) (acc : List FarcasterMessage),
      acc.length ≤ 500 →
      (fetchCastsLoop source fuel i acc).casts.length ≤ 500 := by
  intro fuel
  induction fuel with
  | zero => intro i acc h; exact h
  | succ fuel ih =>
    intro i acc h
    rw [fetchCastsLoop]
    cases hs : source i with
    | error e => exact h
    | ok page =>
      simp only [MAX_CASTS_TO_FETCH_FOR_POST_TIME_ANALYSIS]
      split_ifs with h1 h2
      · rw [List.length_take]
        exact Nat.min_le_left _ _
      · exact ih (i + 1) _ (by omega)
      · show (acc ++ (page.messages.getD []).filter isCastAddMessage).length ≤ 500
        omega

theorem fetchCastsLoop_requests_le (source : CastsSource)
    (hfull : ∀ i page, source i = Except.ok page →
      100 ≤ ((page.messages.getD []).filter isCastAddMessage).length) :
    ∀ (fuel i : Nat) (acc : List FarcasterMessage),
      100 * i ≤ acc.length → acc.length < 500 →
      (fetchCastsLoop source fuel i acc).requests ≤ 5 := by
  intro fuel
  induction fuel with
  | zero => intro i acc h1 h2; show i ≤ 5; omega
  | succ fuel ih =>
    intro i acc h1 h2
    rw [fetchCastsLoop]
    cases hs : source i with
    | error e => show i + 1 ≤ 5; omega
    | ok page =>
      have hq := hfull i page hs
      simp only [MAX_CASTS_TO_FETCH_FOR_POST_TIME_ANALYSIS]
      have hlen : (acc ++ (page.messages.getD []).filter isCastAddMessage).length
          = acc.length + ((page.messages.getD []).filter isCastAddMessage).length :=
        List.length_append _ _
      split_ifs with hcap htok
      · show i + 1 ≤ 5; omega
      · exact ih (i + 1) _ (by omega) (by omega)
      · show i + 1 ≤ 5; omega

theorem fetchCastsLoop_consume (source : CastsSource) :
    ∀ (ps : List CastsPage) (fuel i : Nat) (acc : List FarcasterMessage),
      sourceServes source i ps →
      (∀ p ∈ ps, strTruthy p.nextPageToken = true) →
      acc.length + (qualCat ps).length < 500 →
      fetchCastsLoop source (fuel + ps.length) i acc =
        fetchCastsLoop source fuel (i + ps.length) (acc ++ qualCat ps) := by
  intro ps
  induction ps with
  | nil =>
    intro fuel i acc _ _ _
    simp [qualCat]
  | cons p rest ih =>
    intro fuel i acc hserv htok htotal
    simp only [sourceServes] at hserv
    obtain ⟨hs, hserv2⟩ := hserv
    have hqcons : qualCat (p :: rest) = qualCasts p ++ qualCat rest := by
      simp [qualCat, qualCasts]
    have hlen : (acc ++ qualCasts p).length = acc.length + (qualCasts p).length :=
      List.length_append _ _
    have htotal' : acc.length + ((qualCasts p).length + (qualCat rest).length) < 500 := by
      rw [hqcons, List.length_append] at htotal
      omega
    have hstep : fetchCastsLoop source (fuel + (p :: rest).length) i acc =
        fetchCastsLoop source (fuel + rest.length) (i + 1) (acc ++ qualCasts p) := by
      have hf : fuel + (p :: rest).length = (fuel + rest.length) + 1 := by
        simp [List.length_cons]
        omega
      have hlen2 : (acc ++ List.filter isCastAddMessage (p.messages.getD [])).length
          = acc.length + (qualCasts p).length := by
        rw [List.length_append]; rfl
      rw [hf, fetchCastsLoop, hs]
      simp only [MAX_CASTS_TO_FETCH_FOR_POST_TIME_ANALYSIS]
      rw [if_neg (by rw [hlen2]; omega)]
      rw [if_pos (htok p (List.mem_cons_self _ _))]
      rfl
    rw [hstep, ih (fuel) (i + 1) (acc ++ qualCasts p) hserv2
      (fun q hq => htok q (List.mem_cons_of_mem _ hq)) (by omega)]
    rw [hqcons, ← List.append_assoc]
    have : i + 1 + rest.length = i + (rest.length + 1) := by omega
    rw [this]
    rfl

theorem fetchAllUserCasts_exact (source : CastsSource) (ps : List CastsPage)
    (lastPage : CastsPage) (fuel : Nat)
    (hserv : sourceServes source 0 (ps ++ [lastPage]))
    (htok : ∀ p ∈ ps, strTruthy p.nextPageToken = true)
    (hlast : strTruthy lastPage.nextPageToken = false)
    (htotal : (qualCat (ps ++ [lastPage])).length < 500)
    (hfuel : ps.length + 1 ≤ fuel) :
    fetchAllUserCasts source fuel =
      ⟨qualCat (ps ++ [lastPage]), none, ps.length + 1, true⟩ := by
  obtain ⟨hserv1, hserv2⟩ := sourceServes_append source ps [lastPage] 0 hserv
  simp only [sourceServes] at hserv2
  obtain ⟨hslast, -⟩ := hserv2
  have hq : qualCat (ps ++ [lastPage]) = qualCat ps ++ qualCasts lastPage := by
    rw [qualCat_append]
    simp [qualCat]
  have htotal1 : (qualCat ps).length + (qualCasts lastPage).length < 500 := by
    rw [hq, List.length_append] at htotal
    exact htotal
  have hfe : fuel = ((fuel - ps.length - 1) + 1) + ps.length := by omega
  rw [fetchAllUserCasts, hfe]
  rw [fetchCastsLoop_consume source ps ((fuel - ps.length - 1) + 1) 0 []
    hserv1 htok (by simpa using (by omega : (qualCat ps).length < 500))]
  rw [fetchCastsLoop, hslast]
  simp only [MAX_CASTS_TO_FETCH_FOR_POST_TIME_ANALYSIS]
  have hlen2 : (([] ++ qualCat ps) ++
      List.filter isCastAddMessage (lastPage.messages.getD [])).length
      = (qualCat ps).length + (qualCasts lastPage).length := by
    rw [List.length_append]
    simp [qualCasts]
  rw [if_neg (by rw [hlen2]; omega)]
  rw [if_neg (by rw [hlast]; exact Bool.false_ne_true)]
  have : ([] ++ qualCat ps) ++
      List.filter isCastAddMessage (lastPage.messages.getD [])
      = qualCat (ps ++ [lastPage]) := by
    rw [hq]
    simp [qualCasts]
  rw [this]
  have : 0 + ps.length + 1 = ps.length + 1 := by omega
  rw [this]

theorem fetchAllUserCasts_error_stops (source : CastsSource) (ps : List CastsPage)
    (e : String) (fuel : Nat)
    (hserv : sourceServes source 0 ps)
    (htok : ∀ p ∈ ps, strTruthy p.nextPageToken = true)
    (htotal : (qualCat ps).length < 500)
    (herr : source ps.length = Except.error e)
    (hfuel : ps.length < fuel) :
    fetchAllUserCasts source fuel =
      ⟨qualCat ps, some ("Neynar Hub API error (castsByFid): " ++ e),
        ps.length + 1, true⟩ := by
  have hfe : fuel = ((fuel - ps.length - 1) + 1) + ps.length := by omega
  rw [fetchAllUserCasts, hfe]
  rw [fetchCastsLoop_consume source ps ((fuel - ps.length - 1) + 1) 0 []
    hserv htok (by simpa using htotal)]
  have h0 : (0 : Nat) + ps.length = ps.length := by omega
  rw [h0, fetchCastsLoop, herr]
  simp

end CastsCollector

section FollowersCollector

theorem pageFids_length_le (l : List NeynarFollower) :
    (pageFids l).length ≤ l.length :=
  List.length_filterMap_le _ _

theorem fidsCat_append (xs ys : List FollowersPage) :
    fidsCat (xs ++ ys) = fidsCat xs ++ fidsCat ys := by
  simp [fidsCat]

theorem entriesCount_append (xs ys : List FollowersPage) :
    entriesCount (xs ++ ys) = entriesCount xs + entriesCount ys := by
  simp [entriesCount]

theorem followersServes_append (source : FollowersSource) :
    ∀ (xs ys : List FollowersPage) (i : Nat), followersServes source i (xs ++ ys) →
      followersServes source i xs ∧ followersServes source (i + xs.length) ys := by
  intro xs
  induction xs with
  | nil =>
    intro ys i h
    exact ⟨trivial, by simpa using h⟩
  | cons p rest ih =>
    intro ys i h
    simp only [List.cons_append, followersServes] at h
    obtain ⟨h1, h2⟩ := h
    obtain ⟨h3, h4⟩ := ih ys (i + 1) h2
    refine ⟨⟨h1, h3⟩, ?_⟩
    have : i + 1 + rest.length = i + (rest.length + 1) := by omega
    rw [this] at h4
    simpa using h4

theorem followersLoop_fids_le (source : FollowersSource)
    (hresp : ∀ i lim page, source i lim = Except.ok page →
      (page.users.getD []).length ≤ lim) :
    ∀ (fuel i count : Nat) (acc : List Nat),
      acc.length ≤ count → count ≤ 150 →
      (followersLoop source fuel i count acc).fids.length ≤ 150 := by
  intro fuel
  induction fuel with
  | zero => intro i count acc h1 h2; show acc.length ≤ 150; omega
  | succ fuel ih =>
    intro i count acc h1 h2
    rw [followersLoop]
    simp only [MAX_FOLLOWERS_TO_PROCESS, FOLLOWER_FETCH_BATCH_SIZE]
    by_cases hcount : count < 150
    · rw [if_pos hcount]
      by_cases hlim : min 50 (150 - count) = 0
      · rw [if_pos hlim]
        show acc.length ≤ 150
        omega
      · rw [if_neg hlim]
        cases hs : source i (min 50 (150 - count)) with
        | error e => show acc.length ≤ 150; omega
        | ok page =>
          have hle := hresp i _ page hs
          have hpf := pageFids_length_le (page.users.getD [])
          have hal : (acc ++ pageFids (page.users.getD [])).length
              = acc.length + (pageFids (page.users.getD [])).length :=
            List.length_append _ _
          dsimp only
          by_cases hu : (page.users.getD []).length > 0
          · simp only [if_pos hu]
            by_cases hcur : strTruthy (page.next.bind NextCursor.cursor) = true
            · rw [if_pos hcur]
              by_cases hcap : 150 ≤ count + (page.users.getD []).length
              · rw [if_pos hcap]
                show (acc ++ pageFids (page.users.getD [])).length ≤ 150
                omega
              · rw [if_neg hcap]
                exact ih (i + 1) (count + (page.users.getD []).length)
                  (acc ++ pageFids (page.users.getD [])) (by omega) (by omega)
            · rw [if_neg hcur]
              show (acc ++ pageFids (page.users.getD [])).length ≤ 150
              omega
          · simp only [if_neg hu]
            by_cases hcur : strTruthy (page.next.bind NextCursor.cursor) = true
            · rw [if_pos hcur]
              by_cases hcap : 150 ≤ count
              · rw [if_pos hcap]
                show acc.length ≤ 150
                omega
              · rw [if_neg hcap]
                exact ih (i + 1) count acc h1 h2
            · rw [if_neg hcur]
              show acc.length ≤ 150
              omega
    · rw [if_neg hcount]
      show acc.length ≤ 150
      omega

theorem followersLoop_requests_le (source : FollowersSource)
    (hresp : ∀ i lim page, source i lim = Except.ok page →
      lim ≤ (page.users.getD []).length) :
    ∀ (fuel i count : Nat) (acc : List Nat),
      50 * i ≤ count → count < 150 →
      (followersLoop source fuel i count acc).requests ≤ 3 := by
  intro fuel
  induction fuel with
  | zero => intro i count acc h1 h2; show i ≤ 3; omega
  | succ fuel ih =>
    intro i count acc h1 h2
    rw [followersLoop]
    simp only [MAX_FOLLOWERS_TO_PROCESS, FOLLOWER_FETCH_BATCH_SIZE]
    rw [if_pos h2]
    by_cases hlim : min 50 (150 - count) = 0
    · exact absurd hlim (by omega)
    · rw [if_neg hlim]
      cases hs : source i (min 50 (150 - count)) with
      | error e => show i + 1 ≤ 3; omega
      | ok page =>
        have hge := hresp i _ page hs
        have hu : (page.users.getD []).length > 0 := by omega
        dsimp only
        simp only [if_pos hu]
        by_cases hcur : strTruthy (page.next.bind NextCursor.cursor) = true
        · rw [if_pos hcur]
          by_cases hcap : 150 ≤ count + (page.users.getD []).length
          · rw [if_pos hcap]
            show i + 1 ≤ 3
            omega
          · rw [if_neg hcap]
            exact ih (i + 1) (count + (page.users.getD []).length)
              (acc ++ pageFids (page.users.getD [])) (by omega) (by omega)
        · rw [if_neg hcur]
          show i + 1 ≤ 3
          omega

theorem followersLoop_consume (source : FollowersSource) :
    ∀ (ps : List FollowersPage) (fuel i count : Nat) (acc : List Nat),
      followersServes source i ps →
      (∀ p ∈ ps, strTruthy (pageCursor p) = true) →
      count + entriesCount ps < 150 →
      followersLoop source (fuel + ps.length) i count acc =
        followersLoop source fuel (i + ps.length) (count + entriesCount ps)
          (acc ++ fidsCat ps) := by
  intro ps
  induction ps with
  | nil =>
    intro fuel i count acc _ _ _
    simp [entriesCount, fidsCat]
  | cons p rest ih =>
    intro fuel i count acc hserv hcur htotal
    simp only [followersServes] at hserv
    obtain ⟨hs, hserv2⟩ := hserv
    have hec : entriesCount (p :: rest) = (pageEntries p).length + entriesCount rest := by
      simp [entriesCount]
    have hfc : fidsCat (p :: rest) = pageFids (pageEntries p) ++ fidsCat rest := by
      simp [fidsCat]
    have hf : fuel + (p :: rest).length = (fuel + rest.length) + 1 := by
      simp [List.length_cons]
      omega
    have hcount : count < 150 := by rw [hec] at htotal; omega
    have hstep : followersLoop source (fuel + (p :: rest).length) i count acc =
        followersLoop source (fuel + rest.length) (i + 1)
          (count + (pageEntries p).length) (acc ++ pageFids (pageEntries p)) := by
      rw [hf, followersLoop]
      simp only [MAX_FOLLOWERS_TO_PROCESS, FOLLOWER_FETCH_BATCH_SIZE]
      rw [if_pos hcount]
      rw [if_neg (by omega : ¬ min 50 (150 - count) = 0)]
      rw [hs (min 50 (150 - count))]
      have hent : pageEntries p = p.users.getD [] := rfl
      have hpc : strTruthy (p.next.bind NextCursor.cursor) = true :=
        hcur p (List.mem_cons_self _ _)
      by_cases hu : (p.users.getD []).length > 0
      · dsimp only
        simp only [if_pos hu]
        rw [if_pos hpc]
        rw [if_neg (by rw [hec, hent] at htotal; omega :
          ¬ 150 ≤ count + (p.users.getD []).length)]
        rw [hent]
      · have hnil : p.users.getD [] = [] := by
          cases hpe : p.users.getD [] with
          | nil => rfl
          | cons a l => rw [hpe] at hu; simp at hu
        dsimp only
        simp only [if_neg hu]
        rw [if_pos hpc]
        rw [if_neg (by omega : ¬ 150 ≤ count)]
        rw [hent, hnil]
        show followersLoop source (fuel + rest.length) (i + 1) count acc =
          followersLoop source (fuel + rest.length) (i + 1) (count + ([] : List NeynarFollower).length)
            (acc ++ pageFids [])
        simp [pageFids]
    rw [hstep, ih (fuel) (i + 1) (count + (pageEntries p).length)
      (acc ++ pageFids (pageEntries p)) hserv2
      (fun q hq => hcur q (List.mem_cons_of_mem _ hq))
      (by rw [hec] at htotal; omega)]
    rw [hec, hfc, ← List.append_assoc]
    have h1 : i + 1 + rest.length = i + (rest.length + 1) := by omega
    have h2 : count + (pageEntries p).length + entriesCount rest
        = count + ((pageEntries p).length + entriesCount rest) := by omega
    rw [h1, h2]
    rfl

theorem collectFollowerFids_exact (source : FollowersSource)
    (ps : List FollowersPage) (lastPage : FollowersPage) (fuel : Nat)
    (hserv : followersServes source 0 (ps ++ [lastPage]))
    (hcur : ∀ p ∈ ps, strTruthy (pageCursor p) = true)
    (hlast : strTruthy (pageCursor lastPage) = false)
    (htotal : entriesCount (ps ++ [lastPage]) < 150)
    (hfuel : ps.length + 1 ≤ fuel) :
    collectFollowerFids source fuel =
      ⟨fidsCat (ps ++ [lastPage]), none, ps.length + 1, true⟩ := by
  obtain ⟨hserv1, hserv2⟩ := followersServes_append source ps [lastPage] 0 hserv
  simp only [followersServes] at hserv2
  obtain ⟨hslast, -⟩ := hserv2
  have hec : entriesCount (ps ++ [lastPage])
      = entriesCount ps + (pageEntries lastPage).length := by
    rw [entriesCount_append]
    simp [entriesCount]
  have hfc : fidsCat (ps ++ [lastPage])
      = fidsCat ps ++ pageFids (pageEntries lastPage) := by
    rw [fidsCat_append]
    simp [fidsCat]
  have hfe : fuel = ((fuel - ps.length - 1) + 1) + ps.length := by omega
  rw [collectFollowerFids, hfe]
  rw [followersLoop_consume source ps ((fuel - ps.length - 1) + 1) 0 0 []
    hserv1 hcur (by omega)]
  rw [followersLoop]
  simp only [MAX_FOLLOWERS_TO_PROCESS, FOLLOWER_FETCH_BATCH_SIZE]
  rw [if_pos (by omega : 0 + entriesCount ps < 150)]
  rw [if_neg (by omega : ¬ min 50 (150 - (0 + entriesCount ps)) = 0)]
  rw [hslast (min 50 (150 - (0 + entriesCount ps)))]
  have hent : pageEntries lastPage = lastPage.users.getD [] := rfl
  have hpcl : strTruthy (lastPage.next.bind NextCursor.cursor) = false := hlast
  by_cases hu : (lastPage.users.getD []).length > 0
  · dsimp only
    simp only [if_pos hu]
    rw [if_neg (by rw [hpcl]; exact Bool.false_ne_true)]
    rw [hfc, hent]
    simp
  · have hnil : lastPage.users.getD [] = [] := by
      cases hpe : lastPage.users.getD [] with
      | nil => rfl
      | cons a l => rw [hpe] at hu; simp at hu
    dsimp only
    simp only [if_neg hu]
    rw [if_neg (by rw [hpcl]; exact Bool.false_ne_true)]
    rw [hfc, hent, hnil]
    simp [pageFids]

theorem collectFollowerFids_error_stops (source : FollowersSource)
    (ps : List FollowersPage) (e : String) (fuel : Nat)
    (hserv : followersServes source 0 ps)
    (hcur : ∀ p ∈ ps, strTruthy (pageCursor p) = true)
    (htotal : entriesCount ps < 150)
    (herr : ∀ lim, source ps.length lim = Except.error e)
    (hfuel : ps.length < fuel) :
    collectFollowerFids source fuel =
      ⟨fidsCat ps, some ("Neynar API error (followers): " ++ e),
        ps.length + 1, true⟩ := by
  have hfe : fuel = ((fuel - ps.length - 1) + 1) + ps.length := by omega
  rw [collectFollowerFids, hfe]
  rw [followersLoop_consume source ps ((fuel - ps.length - 1) + 1) 0 0 []
    hserv hcur (by omega)]
  rw [followersLoop]
  simp only [MAX_FOLLOWERS_TO_PROCESS, FOLLOWER_FETCH_BATCH_SIZE]
  rw [if_pos (by omega : 0 + entriesCount ps < 150)]
  rw [if_neg (by omega : ¬ min 50 (150 - (0 + entriesCount ps)) = 0)]
  have h0 : (0 : Nat) + ps.length = ps.length := by omega
  rw [h0, herr (min 50 (150 - (0 + entriesCount ps)))]
  simp

end FollowersCollector

set_option maxRecDepth 40000 in
/-- Counterexample for C1 as stated: when a followers page over-serves the
requested limit (151 entries on a request with limit 50), the loop of
`getTrueAudienceProfile.run` accumulates 151 > 150 follower FIDs — it
never truncates the accumulator. -/
theorem collector_cap_counterexample :
    (collectFollowerFids overserveFollowersSource 2).fids.length = 151 ∧
    ¬ ((collectFollowerFids overserveFollowersSource 2).fids.length ≤
        MAX_FOLLOWERS_TO_PROCESS) := by
  have h : (collectFollowerFids overserveFollowersSource 2).fids.length = 151 := by
    rfl
  exact ⟨h, by rw [h]; decide⟩

/-- C1 (amended): `fetchAllUserCasts` never returns more than 500 cast-add
messages, for every source and fuel; and the follower pagination loop
never accumulates more than 150 follower FIDs provided every served page
contains at most the requested limit of entries. -/
theorem collector_cap :
    (∀ (source : CastsSource) (fuel : Nat),
      (fetchAllUserCasts source fuel).casts.length ≤
        MAX_CASTS_TO_FETCH_FOR_POST_TIME_ANALYSIS) ∧
    (∀ (source : FollowersSource) (fuel : Nat),
      (∀ i lim page, source i lim = Except.ok page →
        (page.users.getD []).length ≤ lim) →
      (collectFollowerFids source fuel).fids.length ≤ MAX_FOLLOWERS_TO_PROCESS) := by
  constructor
  · intro source fuel
    exact fetchCastsLoop_casts_le source fuel 0 [] (by simp)
  · intro source fuel hresp
    exact followersLoop_fids_le source hresp fuel 0 0 [] (by simp) (by omega)

/-- Witness for C1 (amended) at concrete sources. -/
theorem collector_cap_witness :
    (fetchAllUserCasts tinyCastsSource 3).casts.length ≤
      MAX_CASTS_TO_FETCH_FOR_POST_TIME_ANALYSIS ∧
    (collectFollowerFids fullFollowersSource 3).fids.length ≤
      MAX_FOLLOWERS_TO_PROCESS :=
  ⟨collector_cap.1 tinyCastsSource 3,
   collector_cap.2 fullFollowersSource 3 (by
      intro i lim page h
      injection h with h
      rw [← h]
      simp)⟩

/-- Counterexample for C2 as stated: a source whose pages each hold one
non-cast-add message and a continuation token keeps `fetchAllUserCasts`
requesting past the claimed bound of
`ceil(maxItems / pageSize) + 1 = 6` — after 7 requests the loop still has
not terminated. -/
theorem collector_requests_counterexample :
    MAX_CASTS_TO_FETCH_FOR_POST_TIME_ANALYSIS / CAST_FETCH_PAGE_SIZE + 1 = 6 ∧
    (fetchAllUserCasts spinCastsSource 7).requests = 7 ∧
    (fetchAllUserCasts spinCastsSource 7).finished = false ∧
    (fetchAllUserCasts spinCastsSource 7).error = none :=
  ⟨rfl, rfl, rfl, rfl⟩

/-- C2 (amended): when every successful page carries at least a full page
of qualifying items (`pageSize` cast-add messages for `fetchAllUserCasts`;
at least the requested limit of entries for the follower loop), the
collectors perform at most `ceil(maxItems / pageSize) + 1` requests (6 and
4 respectively). -/
theorem collector_requests_bound :
    (∀ (source : CastsSource) (fuel : Nat),
      (∀ i page, source i = Except.ok page →
        CAST_FETCH_PAGE_SIZE ≤
          ((page.messages.getD []).filter isCastAddMessage).length) →
      (fetchAllUserCasts source fuel).requests ≤
        MAX_CASTS_TO_FETCH_FOR_POST_TIME_ANALYSIS / CAST_FETCH_PAGE_SIZE + 1) ∧
    (∀ (source : FollowersSource) (fuel : Nat),
      (∀ i lim page, source i lim = Except.ok page →
        lim ≤ (page.users.getD []).length) →
      (collectFollowerFids source fuel).requests ≤
        MAX_FOLLOWERS_TO_PROCESS / FOLLOWER_FETCH_BATCH_SIZE + 1) := by
  constructor
  · intro source fuel hfull
    have h := fetchCastsLoop_requests_le source hfull fuel 0 []
      (by simp) (by decide)
    exact le_trans h (by decide)
  · intro source fuel hresp
    have h := followersLoop_requests_le source hresp fuel 0 0 []
      (by omega) (by decide)
    exact le_trans h (by decide)

/-- Witness for C2 (amended) at concrete full-page sources. -/
theorem collector_requests_bound_witness :
    (fetchAllUserCasts fullCastsSource 9).requests ≤
      MAX_CASTS_TO_FETCH_FOR_POST_TIME_ANALYSIS / CAST_FETCH_PAGE_SIZE + 1 ∧
    (collectFollowerFids fullFollowersSource 9).requests ≤
      MAX_FOLLOWERS_TO_PROCESS / FOLLOWER_FETCH_BATCH_SIZE + 1 :=
  ⟨collector_requests_bound.1 fullCastsSource 9 (by
      intro i page h
      injection h with h
      rw [← h]
      decide),
   collector_requests_bound.2 fullFollowersSource 9 (by
      intro i lim page h
      injection h with h
      rw [← h]
      simp)⟩

set_option maxRecDepth 40000 in
/-- Counterexample for C6 as stated: a source serving 150 entries whose
FIDs are all `0` (falsy, hence never accumulated) plus a cursor, followed
by one page with a real FID and no cursor, serves only one qualifying item
in total — fewer than 150 — eventually omits the cursor, and never fails;
yet the loop stops after the first page (its counter counts
non-qualifying entries) and returns none of the qualifying items. -/
theorem collector_exact_counterexample :
    followersServes zeroFidFollowersSource 0
      [mkFollowersPage 150 0 (some "a"), mkFollowersPage 1 7 none] ∧
    strTruthy (pageCursor (mkFollowersPage 150 0 (some "a"))) = true ∧
    strTruthy (pageCursor (mkFollowersPage 1 7 none)) = false ∧
    fidsCat [mkFollowersPage 150 0 (some "a"), mkFollowersPage 1 7 none] = [7] ∧
    (collectFollowerFids zeroFidFollowersSource 5).fids = [] ∧
    (collectFollowerFids zeroFidFollowersSource 5).fetchError = none := by
  refine ⟨⟨fun lim => rfl, fun lim => rfl, trivial⟩, rfl, rfl, ?_, ?_, rfl⟩
  · rfl
  · rfl

/-- C6 (amended): a source that eventually returns a page without a
continuation token and never fails is drained completely — the collector
returns exactly all qualifying items, in page order, with no error —
provided the total volume stays under `maxItems`: for `fetchAllUserCasts`
fewer than 500 qualifying cast-add messages; for the follower loop fewer
than 150 served entries, counting non-qualifying ones. -/
theorem collector_exact :
    (∀ (source : CastsSource) (ps : List CastsPage) (lastPage : CastsPage)
        (fuel : Nat),
      sourceServes source 0 (ps ++ [lastPage]) →
      (∀ p ∈ ps, strTruthy p.nextPageToken = true) →
      strTruthy lastPage.nextPageToken = false →
      (qualCat (ps ++ [lastPage])).length <
        MAX_CASTS_TO_FETCH_FOR_POST_TIME_ANALYSIS →
      ps.length + 1 ≤ fuel →
      fetchAllUserCasts source fuel =
        ⟨qualCat (ps ++ [lastPage]), none, ps.length + 1, true⟩) ∧
    (∀ (source : FollowersSource) (ps : List FollowersPage)
        (lastPage : FollowersPage) (fuel : Nat),
      followersServes source 0 (ps ++ [lastPage]) →
      (∀ p ∈ ps, strTruthy (pageCursor p) = true) →
      strTruthy (pageCursor lastPage) = false →
      entriesCount (ps ++ [lastPage]) < MAX_FOLLOWERS_TO_PROCESS →
      ps.length + 1 ≤ fuel →
      collectFollowerFids source fuel =
        ⟨fidsCat (ps ++ [lastPage]), none, ps.length + 1, true⟩) :=
  ⟨fun s ps lp f h1 h2 h3 h4 h5 => fetchAllUserCasts_exact s ps lp f h1 h2 h3 h4 h5,
   fun s ps lp f h1 h2 h3 h4 h5 => collectFollowerFids_exact s ps lp f h1 h2 h3 h4 h5⟩

/-- Witness for C6 (amended) at concrete two-page sources. -/
theorem collector_exact_witness :
    fetchAllUserCasts tinyCastsSource 3 =
      ⟨qualCat [⟨some [mkCastAdd 3], some "t"⟩, ⟨some [mkCastAdd 4], none⟩],
        none, 2, true⟩ ∧
    collectFollowerFids tinyFollowersSource 3 =
      ⟨fidsCat [mkFollowersPage 2 5 (some "a"), mkFollowersPage 1 6 none],
        none, 2, true⟩ := by
  constructor
  · exact collector_exact.1 tinyCastsSource [⟨some [mkCastAdd 3], some "t"⟩]
      ⟨some [mkCastAdd 4], none⟩ 3 ⟨rfl, rfl, trivial⟩
      (by
        intro p hp
        rw [List.mem_singleton] at hp
        subst hp
        decide)
      (by decide) (by decide) (by decide)
  · exact collector_exact.2 tinyFollowersSource [mkFollowersPage 2 5 (some "a")]
      (mkFollowersPage 1 6 none) 3 ⟨fun lim => rfl, fun lim => rfl, trivial⟩
      (by
        intro p hp
        rw [List.mem_singleton] at hp
        subst hp
        decide)
      (by decide) (by decide) (by decide)

/-- C7: if a page request fails, both collectors stop at once — exactly
one request is made for the failing page and none after it — and return
the items accumulated from all pages fetched before the failure together
with the recorded error string, never discarding the partial accumulator
and never retrying. -/
theorem collector_error_stops :
    (∀ (source : CastsSource) (ps : List CastsPage) (e : String) (fuel : Nat),
      sourceServes source 0 ps →
      (∀ p ∈ ps, strTruthy p.nextPageToken = true) →
      (qualCat ps).length < MAX_CASTS_TO_FETCH_FOR_POST_TIME_ANALYSIS →
      source ps.length = Except.error e →
      ps.length < fuel →
      fetchAllUserCasts source fuel =
        ⟨qualCat ps, some ("Neynar Hub API error (castsByFid): " ++ e),
          ps.length + 1, true⟩) ∧
    (∀ (source : FollowersSource) (ps : List FollowersPage) (e : String)
        (fuel : Nat),
      followersServes source 0 ps →
      (∀ p ∈ ps, strTruthy (pageCursor p) = true) →
      entriesCount ps < MAX_FOLLOWERS_TO_PROCESS →
      (∀ lim, source ps.length lim = Except.error e) →
      ps.length < fuel →
      collectFollowerFids source fuel =
        ⟨fidsCat ps, some ("Neynar API error (followers): " ++ e),
          ps.length + 1, true⟩) :=
  ⟨fun s ps e f h1 h2 h3 h4 h5 => fetchAllUserCasts_error_stops s ps e f h1 h2 h3 h4 h5,
   fun s ps e f h1 h2 h3 h4 h5 => collectFollowerFids_error_stops s ps e f h1 h2 h3 h4 h5⟩

/-- Witness for C7 at concrete sources that fail on their second request. -/
theorem collector_error_stops_witness :
    fetchAllUserCasts failingCastsSource 3 =
      ⟨qualCat [⟨some [mkCastAdd 3], some "t"⟩],
        some ("Neynar Hub API error (castsByFid): " ++ "boom"), 2, true⟩ ∧
    collectFollowerFids failingFollowersSource 3 =
      ⟨fidsCat [mkFollowersPage 2 5 (some "a")],
        some ("Neynar API error (followers): " ++ "down"), 2, true⟩ := by
  constructor
  · exact collector_error_stops.1 failingCastsSource
      [⟨some [mkCastAdd 3], some "t"⟩] "boom" 3 ⟨rfl, trivial⟩
      (by
        intro p hp
        rw [List.mem_singleton] at hp
        subst hp
        decide)
      (by decide) rfl (by decide)
  · exact collector_error_stops.2 failingFollowersSource
      [mkFollowersPage 2 5 (some "a")] "down" 3 ⟨fun lim => rfl, trivial⟩
      (by
        intro p hp
        rw [List.mem_singleton] at hp
        subst hp
        decide)
      (by decide) (fun lim => rfl) (by decide)

end YAN
